import Mathlib

/-!
Shallow embedding of `cio::cstream` (src/Sources/cio/include/cstream.hpp).

Two models are used:

* namespace `Cio` — the stream-content model: a file is a byte sequence with a
  read/write position; `std::fread`/`std::fwrite` and the typed helpers
  (`read_uint`, `read_block`, `write_block`) are embedded at byte granularity.
  Host endianness is a parameter, and a value object of an unsigned integer
  type `T` is represented by its in-memory byte list (length = `sizeof(T)`).

* namespace `Cio.Own` — the handle-ownership model: `cstream` instances are
  identified by ids; a system state maps each id to its managed `std::FILE *`
  (`none` models `nullptr`) and records the log of `std::fclose` calls, so
  "performs no close" and "double close" are expressible.
-/

namespace Cio

/-- In-memory interpretation order of multi-byte integers on the host. -/
inductive endianness
  | little
  | big
deriving DecidableEq

/-- `cstream::byte_order` from the source. -/
inductive byte_order
  | little_endian
  | big_endian
  | host
  | swapped
deriving DecidableEq

/-- Little-endian value of a byte list (head = least significant byte). -/
def bytesToNatLE : List Nat → Nat
  | [] => 0
  | b :: bs => b + 256 * bytesToNatLE bs

/-- The `w` least-significant bytes of `v`, least significant first. -/
def natToBytesLE : Nat → Nat → List Nat
  | 0, _ => []
  | w + 1, v => v % 256 :: natToBytesLE w (v / 256)

/-- `OSSwapInt16/32/64`: reverse the `w`-byte representation of `v`. -/
def OSSwap (w v : Nat) : Nat := bytesToNatLE (natToBytesLE w v).reverse

/-- The `switch(sizeof(T))` inside each transforming branch of
`cstream::read_uint`: only widths 2, 4 and 8 have a case; any other width
falls through with the value unchanged (unreachable given the `enable_if`
constraint on `T`). -/
def swapForWidth (w v : Nat) : Nat :=
  match w with
  | 2 => OSSwap 2 v
  | 4 => OSSwap 4 v
  | 8 => OSSwap 8 v
  | _ => v

/-- `OSSwapLittleToHostIntN`: identity on a little-endian host, byte
reversal on a big-endian host. -/
def OSSwapLittleToHost (e : endianness) (w v : Nat) : Nat :=
  match e with
  | .little => v
  | .big => swapForWidth w v

/-- `OSSwapBigToHostIntN`: identity on a big-endian host, byte reversal on a
little-endian host. -/
def OSSwapBigToHost (e : endianness) (w v : Nat) : Nat :=
  match e with
  | .big => v
  | .little => swapForWidth w v

/-- The `switch(order)` of `cstream::read_uint(T&, byte_order)`, acting on the
integer value of the just-read object. -/
def transform (e : endianness) (w : Nat) (order : byte_order) (v : Nat) : Nat :=
  match order with
  | .little_endian => OSSwapLittleToHost e w v
  | .big_endian => OSSwapBigToHost e w v
  | .host => v
  | .swapped => swapForWidth w v

/-- Integer value of the memory image `mem` of an unsigned integer object
under host endianness `e`. -/
def memValue (e : endianness) (mem : List Nat) : Nat :=
  match e with
  | .little => bytesToNatLE mem
  | .big => bytesToNatLE mem.reverse

/-- Memory image of the integer `v` stored into a `w`-byte unsigned integer
object under host endianness `e`. -/
def natToMem (e : endianness) (w v : Nat) : List Nat :=
  match e with
  | .little => natToBytesLE w v
  | .big => (natToBytesLE w v).reverse

/-- The readable content of a stream: its byte sequence and the position. -/
structure FileStream where
  data : List Nat
  pos : Nat
deriving DecidableEq

/-- `std::fread` at byte granularity: transfers the available bytes, up to `n`
of them, into the destination and advances the position by the number of bytes
transferred. -/
def freadBytes (n : Nat) (s : FileStream) : List Nat × FileStream :=
  let bs := (s.data.drop s.pos).take n
  (bs, { s with pos := s.pos + bs.length })

/-- `cstream::fread(T& value)` = `fread(&value, sizeof(T), 1) == 1`: the bytes
read overwrite the leading bytes of the object's memory `mem`
(`mem.length = sizeof(T) = w`); the call succeeds iff one whole element was
transferred. -/
def freadMem (w : Nat) (mem : List Nat) (s : FileStream) : List Nat × Bool × FileStream :=
  match freadBytes w s with
  | (bs, s') => (bs ++ mem.drop bs.length, bs.length == w, s')

/-- `cstream::read_uint(T& value, byte_order order)`: raw read of one element,
then the byte-order transform keyed on `order` and `sizeof(T)`; on a failed
raw read it returns `false` with no transform applied. -/
def read_uint (e : endianness) (w : Nat) (mem : List Nat) (order : byte_order)
    (s : FileStream) : List Nat × Bool × FileStream :=
  match freadMem w mem s with
  | (mem', ok, s') =>
    if ok then (natToMem e w (transform e w order (memValue e mem')), true, s')
    else (mem', false, s')

/-- `cstream::read_uint_little(T&)` = `read_uint(value, byte_order::little_endian)`. -/
def read_uint_little (e : endianness) (w : Nat) (mem : List Nat) (s : FileStream) :
    List Nat × Bool × FileStream :=
  read_uint e w mem byte_order.little_endian s

/-- `cstream::read_uint_big(T&)` = `read_uint(value, byte_order::big_endian)`. -/
def read_uint_big (e : endianness) (w : Nat) (mem : List Nat) (s : FileStream) :
    List Nat × Bool × FileStream :=
  read_uint e w mem byte_order.big_endian s

/-- `cstream::read_uint_swapped(T&)` = `read_uint(value, byte_order::swapped)`. -/
def read_uint_swapped (e : endianness) (w : Nat) (mem : List Nat) (s : FileStream) :
    List Nat × Bool × FileStream :=
  read_uint e w mem byte_order.swapped s

/-- Modelled from the spec: `read_uint_host`, the host-order convenience
wrapper (present only in the duplicated header the spec describes, absent
from src/); per the spec it fixes `order` to `host`. -/
def read_uint_host (e : endianness) (w : Nat) (mem : List Nat) (s : FileStream) :
    List Nat × Bool × FileStream :=
  read_uint e w mem byte_order.host s

/-- `cstream::read_uint<T>(byte_order order)` (value-returning): `T value{}`
zero-initializes the object's memory, the reference form fills it, and a
failed read yields `std::nullopt`. -/
def read_uint_opt (e : endianness) (w : Nat) (order : byte_order) (s : FileStream) :
    Option Nat × FileStream :=
  match read_uint e w (List.replicate w 0) order s with
  | (mem', ok, s') => (if ok then some (memValue e mem') else none, s')

/-- `cstream::read_uint_little<T>()` = `read_uint<T>(byte_order::little_endian)`. -/
def read_uint_little_opt (e : endianness) (w : Nat) (s : FileStream) :
    Option Nat × FileStream :=
  read_uint_opt e w byte_order.little_endian s

/-- `cstream::read_uint_big<T>()` = `read_uint<T>(byte_order::big_endian)`. -/
def read_uint_big_opt (e : endianness) (w : Nat) (s : FileStream) :
    Option Nat × FileStream :=
  read_uint_opt e w byte_order.big_endian s

/-- `cstream::read_uint_swapped<T>()` = `read_uint<T>(byte_order::swapped)`. -/
def read_uint_swapped_opt (e : endianness) (w : Nat) (s : FileStream) :
    Option Nat × FileStream :=
  read_uint_opt e w byte_order.swapped s

/-- Modelled from the spec: the value-returning host-order form; in src/ it is
reachable as `read_uint<T>()` through the defaulted `order` argument. -/
def read_uint_host_opt (e : endianness) (w : Nat) (s : FileStream) :
    Option Nat × FileStream :=
  read_uint_opt e w byte_order.host s

/- Encoding lemmas -/

theorem natToBytesLE_bytesToNatLE (bs : List Nat) (hb : ∀ b ∈ bs, b < 256) :
    natToBytesLE bs.length (bytesToNatLE bs) = bs := by
  induction bs with
  | nil => rfl
  | cons b t ih =>
    have hb0 : b < 256 := hb b (List.mem_cons_self _ _)
    have ht : ∀ x ∈ t, x < 256 := fun x hx => hb x (List.mem_cons_of_mem _ hx)
    have h1 : (b + 256 * bytesToNatLE t) % 256 = b := by omega
    have h2 : (b + 256 * bytesToNatLE t) / 256 = bytesToNatLE t := by omega
    simp [natToBytesLE, bytesToNatLE, h1, h2, ih ht]

theorem OSSwap_memValue (e : endianness) (bs : List Nat) (hb : ∀ b ∈ bs, b < 256) :
    OSSwap bs.length (memValue e bs) = memValue e bs.reverse := by
  cases e with
  | little =>
    simp [OSSwap, memValue, natToBytesLE_bytesToNatLE bs hb]
  | big =>
    have hb' : ∀ b ∈ bs.reverse, b < 256 := fun b h => hb b (List.mem_reverse.mp h)
    have h := natToBytesLE_bytesToNatLE bs.reverse hb'
    rw [List.length_reverse] at h
    simp [OSSwap, memValue, h]

theorem natToMem_memValue (e : endianness) (bs : List Nat) (hb : ∀ b ∈ bs, b < 256) :
    natToMem e bs.length (memValue e bs) = bs := by
  cases e with
  | little => simp [natToMem, memValue, natToBytesLE_bytesToNatLE bs hb]
  | big =>
    have hb' : ∀ b ∈ bs.reverse, b < 256 := fun b h => hb b (List.mem_reverse.mp h)
    have h := natToBytesLE_bytesToNatLE bs.reverse hb'
    rw [List.length_reverse] at h
    simp [natToMem, memValue, h]

theorem natToMem_memValue_len (e : endianness) (w : Nat) (bs : List Nat)
    (hlen : bs.length = w) (hb : ∀ b ∈ bs, b < 256) :
    natToMem e w (memValue e bs) = bs := by
  subst hlen; exact natToMem_memValue e bs hb

theorem OSSwap_memValue_len (e : endianness) (w : Nat) (bs : List Nat)
    (hlen : bs.length = w) (hb : ∀ b ∈ bs, b < 256) :
    OSSwap w (memValue e bs) = memValue e bs.reverse := by
  subst hlen; exact OSSwap_memValue e bs hb

theorem swapForWidth_eq_OSSwap (w v : Nat) (hw : w = 2 ∨ w = 4 ∨ w = 8) :
    swapForWidth w v = OSSwap w v := by
  rcases hw with h | h | h <;> subst h <;> rfl

theorem freadMem_success (w : Nat) (mem : List Nat) (s : FileStream)
    (hlen : ((s.data.drop s.pos).take w).length = w) (hmem : mem.length = w) :
    freadMem w mem s = ((s.data.drop s.pos).take w, true, { s with pos := s.pos + w }) := by
  have hdrop : mem.drop ((s.data.drop s.pos).take w).length = [] := by
    rw [hlen, ← hmem, List.drop_length]
  simp [freadMem, freadBytes, hlen, hdrop]
  omega

theorem read_uint_success (e : endianness) (w : Nat) (mem : List Nat) (order : byte_order)
    (s : FileStream) (hlen : ((s.data.drop s.pos).take w).length = w) (hmem : mem.length = w) :
    read_uint e w mem order s =
      (natToMem e w (transform e w order (memValue e ((s.data.drop s.pos).take w))), true,
        { s with pos := s.pos + w }) := by
  unfold read_uint
  rw [freadMem_success w mem s hlen hmem]
  simp

/-- C1: for every unsigned integer width 2, 4 or 8, `read_uint` first reads
`sizeof(T)` raw bytes as one element (it succeeds and advances the position by
exactly `w`), then transforms them according to `order`: `host` leaves the
bytes untransformed, `swapped` unconditionally reverses the byte order
regardless of host endianness, and `little_endian` (resp. `big_endian`) yields
the little-endian (resp. big-endian) value of the raw bytes on every host; in
particular reading the little-endian encoding of 0x01020304 with
`little_endian` yields 0x01020304 on both hosts. -/
theorem read_uint_byte_orders (e : endianness) (w : Nat) (mem bs : List Nat)
    (s : FileStream)
    (hw : w = 2 ∨ w = 4 ∨ w = 8)
    (hbs : bs = (s.data.drop s.pos).take w)
    (hlen : bs.length = w)
    (hb : ∀ b ∈ bs, b < 256)
    (hmem : mem.length = w) :
    (∀ order, (read_uint e w mem order s).2 = (true, { s with pos := s.pos + w })) ∧
    (read_uint e w mem byte_order.host s).1 = bs ∧
    (read_uint e w mem byte_order.swapped s).1 = bs.reverse ∧
    memValue e (read_uint e w mem byte_order.little_endian s).1 = bytesToNatLE bs ∧
    memValue e (read_uint e w mem byte_order.big_endian s).1 = bytesToNatLE bs.reverse := by
  subst hbs
  have hb' : ∀ b ∈ ((s.data.drop s.pos).take w).reverse, b < 256 :=
    fun b h => hb b (List.mem_reverse.mp h)
  have hlr : ((s.data.drop s.pos).take w).reverse.length = w := by
    rw [List.length_reverse]; exact hlen
  have hmv : natToMem e w (memValue e ((s.data.drop s.pos).take w)) =
      (s.data.drop s.pos).take w :=
    natToMem_memValue_len e w _ hlen hb
  have hswap : OSSwap w (memValue e ((s.data.drop s.pos).take w)) =
      memValue e ((s.data.drop s.pos).take w).reverse :=
    OSSwap_memValue_len e w _ hlen hb
  have hmvrev : natToMem e w (memValue e ((s.data.drop s.pos).take w).reverse) =
      ((s.data.drop s.pos).take w).reverse :=
    natToMem_memValue_len e w _ hlr hb'
  refine ⟨?_, ?_, ?_, ?_, ?_⟩
  · intro order
    rw [read_uint_success e w mem order s hlen hmem]
  · rw [read_uint_success e w mem byte_order.host s hlen hmem]
    exact hmv
  · rw [read_uint_success e w mem byte_order.swapped s hlen hmem]
    simp only [transform]
    rw [swapForWidth_eq_OSSwap _ _ hw, hswap]
    exact hmvrev
  · rw [read_uint_success e w mem byte_order.little_endian s hlen hmem]
    cases e with
    | little =>
      simp only [transform, OSSwapLittleToHost]
      show memValue .little (natToMem .little w (memValue .little _)) = _
      rw [hmv]
      simp [memValue]
    | big =>
      simp only [transform, OSSwapLittleToHost]
      show memValue .big (natToMem .big w (swapForWidth w (memValue .big _))) = _
      rw [swapForWidth_eq_OSSwap _ _ hw, hswap, hmvrev]
      simp [memValue]
  · rw [read_uint_success e w mem byte_order.big_endian s hlen hmem]
    cases e with
    | little =>
      simp only [transform, OSSwapBigToHost]
      show memValue .little (natToMem .little w (swapForWidth w (memValue .little _))) = _
      rw [swapForWidth_eq_OSSwap _ _ hw, hswap, hmvrev]
      simp [memValue]
    | big =>
      simp only [transform, OSSwapBigToHost]
      show memValue .big (natToMem .big w (memValue .big _)) = _
      rw [hmv]
      simp [memValue]

/-- Witness for the byte-order theorem: the 4-byte little-endian encoding of
0x01020304 read with `little_endian` yields 0x01020304 on both hosts. -/
theorem read_uint_byte_orders_witness :
    memValue endianness.big
        (read_uint endianness.big 4 [0, 0, 0, 0] byte_order.little_endian
          (FileStream.mk [4, 3, 2, 1] 0)).1 = 0x01020304 ∧
    memValue endianness.little
        (read_uint endianness.little 4 [0, 0, 0, 0] byte_order.little_endian
          (FileStream.mk [4, 3, 2, 1] 0)).1 = 0x01020304 := by
  constructor
  · have h := read_uint_byte_orders endianness.big 4 [0, 0, 0, 0] [4, 3, 2, 1]
      (FileStream.mk [4, 3, 2, 1] 0) (by decide) (by decide) (by decide) (by decide) (by decide)
    rw [h.2.2.2.1]
    decide
  · have h := read_uint_byte_orders endianness.little 4 [0, 0, 0, 0] [4, 3, 2, 1]
      (FileStream.mk [4, 3, 2, 1] 0) (by decide) (by decide) (by decide) (by decide) (by decide)
    rw [h.2.2.2.1]
    decide

/-- C2: if the raw read does not deliver one whole element, `read_uint`
returns `false` and the value object is mutated exactly as by the raw read,
with no byte-order transform applied; on a successful read the outcome is a
pure function of the raw bytes read, independent of the value object's prior
content. -/
theorem read_uint_failure_pure (e : endianness) (w : Nat) (order : byte_order)
    (s : FileStream) :
    (∀ mem, s.data.length - s.pos < w →
      read_uint e w mem order s =
        ((freadBytes w s).1 ++ mem.drop (freadBytes w s).1.length, false,
          (freadBytes w s).2)) ∧
    (∀ mem₁ mem₂, mem₁.length = w → mem₂.length = w → w ≤ s.data.length - s.pos →
      read_uint e w mem₁ order s = read_uint e w mem₂ order s) := by
  constructor
  · intro mem hlt
    have hok : (((s.data.drop s.pos).take w).length == w) = false := by
      simp [List.length_take, List.length_drop]
      omega
    simp [read_uint, freadMem, freadBytes, hok]
    omega
  · intro mem₁ mem₂ h1 h2 hle
    have hlen : ((s.data.drop s.pos).take w).length = w := by
      rw [List.length_take, List.length_drop]
      omega
    rw [read_uint_success e w mem₁ order s hlen h1,
        read_uint_success e w mem₂ order s hlen h2]

/-- Witness for the failure/purity theorem: a 4-byte read from a 2-byte stream
fails, leaves the untransformed raw-read image in the value object, and two
different prior value contents give identical successful reads. -/
theorem read_uint_failure_pure_witness :
    read_uint endianness.little 4 [1, 2, 3, 4] byte_order.swapped (FileStream.mk [9, 9] 0) =
      ([9, 9, 3, 4], false, FileStream.mk [9, 9] 2) ∧
    read_uint endianness.little 2 [7, 7] byte_order.host (FileStream.mk [5, 6] 0) =
      read_uint endianness.little 2 [8, 8] byte_order.host (FileStream.mk [5, 6] 0) := by
  constructor
  · have h := (read_uint_failure_pure endianness.little 4 byte_order.swapped
      (FileStream.mk [9, 9] 0)).1 [1, 2, 3, 4] (by decide)
    rw [h]
    decide
  · exact (read_uint_failure_pure endianness.little 2 byte_order.host
      (FileStream.mk [5, 6] 0)).2 [7, 7] [8, 8] (by decide) (by decide) (by decide)

/-- C3: each convenience wrapper equals `read_uint` with `order` fixed to the
corresponding `byte_order` value, and each value-returning variant returns
exactly the value produced by the reference-based form (on a zero-initialized
object) when that form returns `true`, and an absent result exactly when it
returns `false`. -/
theorem read_uint_wrappers (e : endianness) (w : Nat) (mem : List Nat) (s : FileStream) :
    read_uint_little e w mem s = read_uint e w mem byte_order.little_endian s ∧
    read_uint_big e w mem s = read_uint e w mem byte_order.big_endian s ∧
    read_uint_swapped e w mem s = read_uint e w mem byte_order.swapped s ∧
    read_uint_host e w mem s = read_uint e w mem byte_order.host s ∧
    read_uint_little_opt e w s = read_uint_opt e w byte_order.little_endian s ∧
    read_uint_big_opt e w s = read_uint_opt e w byte_order.big_endian s ∧
    read_uint_swapped_opt e w s = read_uint_opt e w byte_order.swapped s ∧
    read_uint_host_opt e w s = read_uint_opt e w byte_order.host s ∧
    (∀ order,
      ((read_uint_opt e w order s).1 = none ↔
        (read_uint e w (List.replicate w 0) order s).2.1 = false) ∧
      ((read_uint e w (List.replicate w 0) order s).2.1 = true →
        (read_uint_opt e w order s).1 =
          some (memValue e (read_uint e w (List.replicate w 0) order s).1)) ∧
      (read_uint_opt e w order s).2 = (read_uint e w (List.replicate w 0) order s).2.2) := by
  refine ⟨rfl, rfl, rfl, rfl, rfl, rfl, rfl, rfl, ?_⟩
  intro order
  rcases hr : read_uint e w (List.replicate w 0) order s with ⟨mem', ok, s'⟩
  cases ok <;> simp [read_uint_opt, hr]

/-- Witness for the wrapper theorem: a successful 2-byte host-order read,
where the value-returning form yields exactly the reference form's value. -/
theorem read_uint_wrappers_witness :
    (read_uint endianness.little 2 (List.replicate 2 0) byte_order.host
        (FileStream.mk [1, 2] 0)).2.1 = true ∧
    (read_uint_opt endianness.little 2 byte_order.host (FileStream.mk [1, 2] 0)).1 =
      some (memValue endianness.little
        (read_uint endianness.little 2 (List.replicate 2 0) byte_order.host
          (FileStream.mk [1, 2] 0)).1) := by
  refine ⟨by decide, ?_⟩
  have h := read_uint_wrappers endianness.little 2 (List.replicate 2 0) (FileStream.mk [1, 2] 0)
  exact (h.2.2.2.2.2.2.2.2 byte_order.host).2.1 (by decide)

/-- `std::fwrite` at byte granularity: overwrites bytes of the stream at the
position and advances it, extending the stream as needed. -/
def fwriteBytes (bs : List Nat) (s : FileStream) : FileStream :=
  { data := s.data.take s.pos ++ bs ++ s.data.drop (s.pos + bs.length)
    pos := s.pos + bs.length }

/-- Contiguous memory image of a `std::vector<T>`s elements, each serialized
to its `sizeof(T)`-byte representation by `enc`. -/
def encodeAll {α : Type} (enc : α → List Nat) : List α → List Nat
  | [] => []
  | a :: t => enc a ++ encodeAll enc t

/-- `cstream::write_block(const std::vector<T>& v)` =
`fwrite(v.data(), v.size())`: writes the elements' contiguous memory and
returns the element count written. -/
def write_block {α : Type} (enc : α → List Nat) (v : List α) (s : FileStream) :
    Nat × FileStream :=
  (v.length, fwriteBytes (encodeAll enc v) s)

/-- The first `n` whole `w`-byte elements decoded from the front of a buffer. -/
def decodeN {α : Type} (dec : List Nat → α) (w : Nat) : Nat → List Nat → List α
  | 0, _ => []
  | n + 1, bs => dec (bs.take w) :: decodeN dec w n (bs.drop w)

/-- `cstream::read_block<T>(count)`: an empty buffer at `count == 0` with no
I/O; otherwise a raw read of up to `count` whole elements into a
`count`-element buffer, which `resize` then trims to the element count the
raw read returned. -/
def read_block {α : Type} (dec : List Nat → α) (w count : Nat) (s : FileStream) :
    List α × FileStream :=
  if count = 0 then ([], s)
  else
    match freadBytes (w * count) s with
    | (bs, s') => (decodeN dec w (bs.length / w) bs, s')

/-- `std::rewind`: reposition to the start of the stream. -/
def rewind (s : FileStream) : FileStream := { s with pos := 0 }

theorem encodeAll_length {α : Type} (enc : α → List Nat) (w : Nat) (v : List α)
    (henc : ∀ a, (enc a).length = w) :
    (encodeAll enc v).length = w * v.length := by
  induction v with
  | nil => simp [encodeAll]
  | cons a t ih =>
    simp [encodeAll, henc a, ih]
    ring

theorem decodeN_length {α : Type} (dec : List Nat → α) (w n : Nat) (bs : List Nat) :
    (decodeN dec w n bs).length = n := by
  induction n generalizing bs with
  | zero => rfl
  | succ n ih => simp [decodeN, ih]

theorem decodeN_encodeAll {α : Type} (enc : α → List Nat) (dec : List Nat → α) (w : Nat)
    (henc : ∀ a, (enc a).length = w) (hdec : ∀ a, dec (enc a) = a) (v : List α) :
    decodeN dec w v.length (encodeAll enc v) = v := by
  induction v with
  | nil => rfl
  | cons a t ih =>
    have ht : (enc a ++ encodeAll enc t).take w = enc a := by
      rw [← henc a]; exact List.take_left _ _
    have hd : (enc a ++ encodeAll enc t).drop w = encodeAll enc t := by
      rw [← henc a]; exact List.drop_left _ _
    simp [encodeAll, decodeN, ht, hd, hdec a, ih]

/-- C4: a sequence of trivially-copyable elements written via `write_block`
and read back from the start of the same stream via `read_block` with the
same element count and type equals the sequence that was written. -/
theorem write_block_read_block_roundtrip {α : Type} (enc : α → List Nat)
    (dec : List Nat → α) (w : Nat) (v : List α)
    (hwpos : 0 < w) (henc : ∀ a, (enc a).length = w) (hdec : ∀ a, dec (enc a) = a) :
    (read_block dec w v.length
      (rewind (write_block enc v (FileStream.mk [] 0)).2)).1 = v := by
  have hs : rewind (write_block enc v (FileStream.mk [] 0)).2 =
      FileStream.mk (encodeAll enc v) 0 := by
    simp [write_block, fwriteBytes, rewind]
  rw [hs]
  have hflat := encodeAll_length enc w v henc
  by_cases hv : v.length = 0
  · rw [List.length_eq_zero.mp hv] at *
    simp [read_block]
  · have hbs : ((encodeAll enc v).drop 0).take (w * v.length) = encodeAll enc v := by
      rw [List.drop_zero, ← hflat, List.take_length]
    have hn : (encodeAll enc v).length / w = v.length := by
      rw [hflat]; exact Nat.mul_div_cancel_left v.length hwpos
    simp only [read_block, freadBytes, hv, if_false]
    simp only [hbs, hn]
    exact decodeN_encodeAll enc dec w henc hdec v

/-- Witness for the round-trip theorem on a concrete three-element sequence. -/
theorem write_block_read_block_roundtrip_witness :
    (read_block (fun bs => bs.headD 0 == 1) 1 3
        (rewind (write_block (fun b => [cond b 1 0]) [true, false, true]
          (FileStream.mk [] 0)).2)).1 = [true, false, true] :=
  write_block_read_block_roundtrip (fun b => [cond b 1 0]) (fun bs => bs.headD 0 == 1)
    1 [true, false, true] (by decide) (by decide) (by decide)

/-- C5: `read_block` returns a buffer whose length is the number of whole
elements the raw block read delivered — never more than `count`, never a
partial element — and `read_block` with `count = 0` returns an empty buffer
immediately, leaving the stream untouched. -/
theorem read_block_length {α : Type} (dec : List Nat → α) (w count : Nat)
    (s : FileStream) (hwpos : 0 < w) :
    (read_block dec w count s).1.length =
      ((s.data.drop s.pos).take (w * count)).length / w ∧
    (read_block dec w count s).1.length ≤ count ∧
    read_block dec w 0 s = ([], s) := by
  have hmain : (read_block dec w count s).1.length =
      ((s.data.drop s.pos).take (w * count)).length / w := by
    by_cases hc : count = 0
    · subst hc
      simp [read_block]
    · simp only [read_block, freadBytes, hc, if_false]
      exact decodeN_length _ _ _ _
  refine ⟨hmain, ?_, by simp [read_block]⟩
  rw [hmain]
  have hle : ((s.data.drop s.pos).take (w * count)).length ≤ w * count := by
    rw [List.length_take]
    exact Nat.min_le_left _ _
  calc ((s.data.drop s.pos).take (w * count)).length / w
      ≤ w * count / w := Nat.div_le_div_right hle
    _ = count := Nat.mul_div_cancel_left count hwpos

/-- Witness for the read-block length theorem: twenty 2-byte elements
requested from a stream holding only ten yields a buffer of length ten. -/
theorem read_block_length_witness :
    (read_block (fun bs => bs) 2 20 (FileStream.mk (List.replicate 20 7) 0)).1.length = 10 := by
  have h := read_block_length (fun bs => bs) 2 20
    (FileStream.mk (List.replicate 20 7) 0) (by decide)
  rw [h.1]
  decide

namespace Own

/-- A raw `std::FILE *` other than `nullptr`, identified by a number. -/
abbrev Handle := Nat

/-- Ownership state: each `cstream` instance id maps to its managed stream
(`none` models `nullptr`), and every `std::fclose` call on a raw handle is
logged, so "performs no close" and "double close" are expressible. -/
structure Sys where
  insts : Nat → Option Handle
  closeLog : List Handle

/-- Assignment `stream_ = h` on instance `i`. -/
def setInst (i : Nat) (h : Option Handle) (s : Sys) : Sys :=
  { s with insts := fun j => if j = i then h else s.insts j }

/-- `std::fclose(h)` on a raw non-null handle, recorded in the close log. -/
def closeRaw (h : Handle) (s : Sys) : Sys :=
  { s with closeLog := s.closeLog ++ [h] }

/-- `cstream::reset(stream)`: exchanges the managed stream for `h` and closes
the old managed stream if it was not null. -/
def reset (i : Nat) (h : Option Handle) (s : Sys) : Sys :=
  match s.insts i with
  | some old => closeRaw old (setInst i h s)
  | none => setInst i h s

/-- `cstream::release()`: returns the managed stream and replaces it with
`nullptr`, performing no close. -/
def release (i : Nat) (s : Sys) : Option Handle × Sys :=
  (s.insts i, setInst i none s)

/-- `cstream::~cstream()`: `reset()`. -/
def destroy (i : Nat) (s : Sys) : Sys := reset i none s

/-- `cstream(cstream&& rhs)`: initializes the fresh instance `b` with
`rhs.release()`, where `rhs` is instance `a`. -/
def moveConstruct (b a : Nat) (s : Sys) : Sys :=
  match release a s with
  | (h, s') => setInst b h s'

/-- `operator=(cstream&& rhs)`: explicitly guarded self-move no-op, otherwise
`reset(rhs.release())`. -/
def moveAssign (b a : Nat) (s : Sys) : Sys :=
  if b = a then s
  else
    match release a s with
    | (h, s') => reset b h s'

/-- `cstream::fclose()`: `std::fclose(stream_)` followed by
`stream_ = nullptr`, returning the raw close status.  `closeStatus` is the
status the platform close reports per handle; `std::fclose` on a null stream
is undefined behavior in C and is modelled as returning EOF with no recorded
close. -/
def fcloseMember (closeStatus : Handle → Int) (i : Nat) (s : Sys) : Int × Sys :=
  match s.insts i with
  | some h => (closeStatus h, setInst i none (closeRaw h s))
  | none => (-1, setInst i none s)

/-- `cstream(const char *filename, const char *mode)` (and
`cstream(std::FILE *)`): the managed stream is set to the raw open result. -/
def fopenCtor (res : Option Handle) (i : Nat) (s : Sys) : Sys := setInst i res s

/-- `cstream::tmpfile()`: `cstream{std::tmpfile()}`. -/
def tmpfileCtor (res : Option Handle) (i : Nat) (s : Sys) : Sys := setInst i res s

/-- `operator bool()`: `stream_ != nullptr`. -/
def boolTest (i : Nat) (s : Sys) : Bool := (s.insts i).isSome

/-- C6: moving from instance `A` to a distinct instance `B` — by construction
or assignment — leaves `B` owning exactly the handle `A` owned and leaves `A`
empty; move-assignment additionally closes `B`'s previously owned handle
exactly when it had one; self-move-assignment leaves the state unchanged; and
destroying the moved-from `A` performs no close, so there is no double
close. -/
theorem move_transfer (b a : Nat) (s : Sys) (hba : b ≠ a) :
    ((moveConstruct b a s).insts b = s.insts a ∧
     (moveConstruct b a s).insts a = none ∧
     (moveConstruct b a s).closeLog = s.closeLog ∧
     (destroy a (moveConstruct b a s)).closeLog = (moveConstruct b a s).closeLog) ∧
    ((moveAssign b a s).insts b = s.insts a ∧
     (moveAssign b a s).insts a = none ∧
     (∀ h, s.insts b = some h → (moveAssign b a s).closeLog = s.closeLog ++ [h]) ∧
     (s.insts b = none → (moveAssign b a s).closeLog = s.closeLog) ∧
     (destroy a (moveAssign b a s)).closeLog = (moveAssign b a s).closeLog) ∧
    moveAssign a a s = s := by
  have hab : a ≠ b := Ne.symm hba
  have hmcb : (moveConstruct b a s).insts b = s.insts a := by
    simp [moveConstruct, release, setInst]
  have hmca : (moveConstruct b a s).insts a = none := by
    simp [moveConstruct, release, setInst, hab]
  have hmcl : (moveConstruct b a s).closeLog = s.closeLog := by
    simp [moveConstruct, release, setInst]
  have hmcd : (destroy a (moveConstruct b a s)).closeLog = (moveConstruct b a s).closeLog := by
    simp [destroy, reset, hmca, setInst]
  have hma : moveAssign b a s = reset b (s.insts a) (setInst a none s) := by
    simp [moveAssign, hba, release]
  have hinstb : (setInst a none s).insts b = s.insts b := by
    simp [setInst, hba]
  have hmab : (moveAssign b a s).insts b = s.insts a := by
    rw [hma]
    rcases hsb : s.insts b with _ | old <;>
      simp [reset, hinstb, hsb, setInst, closeRaw, hba]
  have hmaa : (moveAssign b a s).insts a = none := by
    rw [hma]
    rcases hsb : s.insts b with _ | old <;>
      simp [reset, hinstb, hsb, setInst, closeRaw, hab, hba]
  have hmal1 : ∀ h, s.insts b = some h → (moveAssign b a s).closeLog = s.closeLog ++ [h] := by
    intro h hh
    rw [hma]
    simp [reset, hinstb, hh, setInst, closeRaw, hba]
  have hmal2 : s.insts b = none → (moveAssign b a s).closeLog = s.closeLog := by
    intro hh
    rw [hma]
    simp [reset, hinstb, hh, setInst, hba]
  have hmad : (destroy a (moveAssign b a s)).closeLog = (moveAssign b a s).closeLog := by
    simp [destroy, reset, hmaa, setInst]
  have hself : moveAssign a a s = s := by
    simp [moveAssign]
  exact ⟨⟨hmcb, hmca, hmcl, hmcd⟩, ⟨hmab, hmaa, hmal1, hmal2, hmad⟩, hself⟩

/-- Witness for the move theorem: instance 0 owns handle 10, instance 1 owns
handle 11; move-assigning 0 into 1 closes 11, transfers 10, empties 0, and
destroying 0 afterwards closes nothing. -/
theorem move_transfer_witness :
    (moveAssign 1 0 (Sys.mk (fun j => if j = 0 then some 10 else
        if j = 1 then some 11 else none) [])).insts 1 = some 10 ∧
    (moveAssign 1 0 (Sys.mk (fun j => if j = 0 then some 10 else
        if j = 1 then some 11 else none) [])).insts 0 = none ∧
    (moveAssign 1 0 (Sys.mk (fun j => if j = 0 then some 10 else
        if j = 1 then some 11 else none) [])).closeLog = [11] ∧
    (destroy 0 (moveAssign 1 0 (Sys.mk (fun j => if j = 0 then some 10 else
        if j = 1 then some 11 else none) []))).closeLog =
      (moveAssign 1 0 (Sys.mk (fun j => if j = 0 then some 10 else
        if j = 1 then some 11 else none) [])).closeLog := by
  have h := move_transfer 1 0 (Sys.mk (fun j => if j = 0 then some 10 else
    if j = 1 then some 11 else none) []) (by decide)
  refine ⟨?_, h.2.1.2.1, ?_, h.2.1.2.2.2.2⟩
  · rw [h.2.1.1]
    rfl
  · rw [h.2.1.2.2.1 11 rfl]
    rfl

/-- C7: `release` returns the currently owned raw handle without performing
any close (the close log is unchanged, so a handle not closed before remains
open) and leaves the instance empty, testing false. -/
theorem release_no_close (i : Nat) (s : Sys) (h : Handle)
    (howned : s.insts i = some h) (hopen : h ∉ s.closeLog) :
    (release i s).1 = some h ∧
    (release i s).2.closeLog = s.closeLog ∧
    (release i s).2.insts i = none ∧
    boolTest i (release i s).2 = false ∧
    h ∉ (release i s).2.closeLog := by
  refine ⟨howned, rfl, ?_, ?_, hopen⟩
  · simp [release, setInst]
  · simp [boolTest, release, setInst]

/-- Witness for the release theorem on an instance owning handle 5 with an
empty close log. -/
theorem release_no_close_witness :
    (release 0 (Sys.mk (fun j => if j = 0 then some 5 else none) [])).1 = some 5 ∧
    (release 0 (Sys.mk (fun j => if j = 0 then some 5 else none) [])).2.insts 0 = none := by
  have h := release_no_close 0 (Sys.mk (fun j => if j = 0 then some 5 else none) []) 5
    rfl (by simp)
  exact ⟨h.1, h.2.2.1⟩

/-- C8: `reset(x)` closes the previously owned handle exactly when the
instance was non-empty and afterwards the instance owns exactly `x` (the
no-argument default leaves it empty); destruction closes the owned handle iff
non-empty and is idempotent through the empty-state guard, so after
`reset()` or `release()` a subsequent destruction performs no close. -/
theorem reset_destroy (i : Nat) (x : Option Handle) (s : Sys) :
    (reset i x s).insts i = x ∧
    (∀ h, s.insts i = some h → (reset i x s).closeLog = s.closeLog ++ [h]) ∧
    (s.insts i = none → (reset i x s).closeLog = s.closeLog) ∧
    (∀ h, s.insts i = some h → (destroy i s).closeLog = s.closeLog ++ [h]) ∧
    (s.insts i = none → (destroy i s).closeLog = s.closeLog) ∧
    (destroy i (destroy i s)).closeLog = (destroy i s).closeLog ∧
    (destroy i (reset i none s)).closeLog = (reset i none s).closeLog ∧
    (destroy i (release i s).2).closeLog = (release i s).2.closeLog := by
  have hresets : ∀ (y : Option Handle) (t : Sys), (reset i y t).insts i = y := by
    intro y t
    rcases hti : t.insts i with _ | old <;> simp [reset, hti, setInst, closeRaw]
  have hnoclose : ∀ (t : Sys), t.insts i = none → (destroy i t).closeLog = t.closeLog := by
    intro t ht
    simp [destroy, reset, ht, setInst]
  refine ⟨hresets x s, ?_, ?_, ?_, ?_, ?_, ?_, ?_⟩
  · intro h hh
    simp [reset, hh, setInst, closeRaw]
  · intro hh
    simp [reset, hh, setInst]
  · intro h hh
    simp [destroy, reset, hh, setInst, closeRaw]
  · intro hh
    simp [destroy, reset, hh, setInst]
  · exact hnoclose _ (hresets none s)
  · exact hnoclose _ (hresets none s)
  · exact hnoclose _ (by simp [release, setInst])

/-- Witness for the reset/destroy theorem: resetting an instance that owns
handle 5 to handle 7 closes 5 and adopts 7, and destroying it instead closes
exactly 5. -/
theorem reset_destroy_witness :
    (reset 0 (some 7) (Sys.mk (fun j => if j = 0 then some 5 else none) [])).insts 0 = some 7 ∧
    (reset 0 (some 7) (Sys.mk (fun j => if j = 0 then some 5 else none) [])).closeLog = [5] ∧
    (destroy 0 (Sys.mk (fun j => if j = 0 then some 5 else none) [])).closeLog = [5] := by
  have h := reset_destroy 0 (some 7) (Sys.mk (fun j => if j = 0 then some 5 else none) [])
  refine ⟨h.1, ?_, ?_⟩
  · rw [h.2.1 5 rfl]
    rfl
  · rw [h.2.2.2.1 5 rfl]
    rfl

/-- C9: when the underlying open (or temporary-file creation) yields null,
the constructed instance is left empty — the managed stream is null and the
boolean test is false; the model is total, so no exception arises on this
path. -/
theorem open_failure_empty (i : Nat) (s : Sys) :
    (fopenCtor none i s).insts i = none ∧
    boolTest i (fopenCtor none i s) = false ∧
    (tmpfileCtor none i s).insts i = none ∧
    boolTest i (tmpfileCtor none i s) = false := by
  simp [fopenCtor, tmpfileCtor, boolTest, setInst]

/-- C10: the member `fclose` returns the underlying close primitive's raw
status — including a failure status — and unconditionally nulls the managed
stream afterwards, so the instance is empty, tests false, and its subsequent
destruction performs no close. -/
theorem fclose_member (closeStatus : Handle → Int) (i : Nat) (s : Sys) :
    (∀ h, s.insts i = some h →
      (fcloseMember closeStatus i s).1 = closeStatus h ∧
      (fcloseMember closeStatus i s).2.closeLog = s.closeLog ++ [h]) ∧
    (fcloseMember closeStatus i s).2.insts i = none ∧
    boolTest i (fcloseMember closeStatus i s).2 = false ∧
    (destroy i (fcloseMember closeStatus i s).2).closeLog =
      (fcloseMember closeStatus i s).2.closeLog := by
  have hnull : (fcloseMember closeStatus i s).2.insts i = none := by
    rcases hsi : s.insts i with _ | h <;> simp [fcloseMember, hsi, setInst, closeRaw]
  refine ⟨?_, hnull, ?_, ?_⟩
  · intro h hh
    simp [fcloseMember, hh, setInst, closeRaw]
  · simp [boolTest, hnull]
  · simp [destroy, reset, hnull, setInst]

/-- Witness for the member-fclose theorem: the platform close reports EOF
(failure) on every handle; the member still returns that status, nulls the
managed stream, and the following destruction closes nothing. -/
theorem fclose_member_witness :
    (fcloseMember (fun _ => -1) 0 (Sys.mk (fun j => if j = 0 then some 5 else none) [])).1
      = -1 ∧
    (fcloseMember (fun _ => -1) 0
      (Sys.mk (fun j => if j = 0 then some 5 else none) [])).2.insts 0 = none ∧
    (destroy 0 (fcloseMember (fun _ => -1) 0
        (Sys.mk (fun j => if j = 0 then some 5 else none) [])).2).closeLog =
      (fcloseMember (fun _ => -1) 0
        (Sys.mk (fun j => if j = 0 then some 5 else none) [])).2.closeLog := by
  have h := fclose_member (fun _ => -1) 0 (Sys.mk (fun j => if j = 0 then some 5 else none) [])
  exact ⟨(h.1 5 rfl).1, h.2.1, h.2.2.2⟩

end Own

end Cio
